import Mathlib

set_option maxHeartbeats 1000000

/-!
Verification of the proteraios queue library: a shallow embedding of
`src/proteraios/queue.py` (PriorityQueue and ReliableQueue, together with
their Lua scripts) and `src/proteraios/client.py` (the polling job client),
with theorems settling the specification claims.

Conventions of the embedding:
* Redis lists are `List String`, index 0 being the head end (`LPUSH`
  prepends, `RPOP` removes the last element).
* Redis sets are `Finset String`; sorted sets are association lists
  `List (String × Int)` whose member names are kept unique by `zadd`.
* Wall-clock instants are naturals passed explicitly to each operation
  (`time.time()` in the source).
* A Lua script that aborts with a runtime error is modelled as
  `Except.error st` carrying the store state at the moment of the abort
  (Redis does not roll back the effects a script performed before failing).
-/

/-!
### The Lua pattern `(%d+):(.+):(%d*)`

Both reliable-queue scripts parse envelopes with
`string.match(elem, '(%d+):(.+):(%d*)')`.  The match is unanchored; Lua
patterns backtrack.  Two observations make the model exact without a general
backtracking engine:

* `%d+` first tries the maximal digit run at the current start position.
  Every shorter candidate ends on a digit character, which can never equal
  the following literal `:`, so shortening `%d+` never helps: the maximal
  run either is followed by `:` or the whole position fails.
* `(.+):` is greedy, so it splits at the last `:` of the remainder whose
  index is at least 1 (`.+` needs one character); `(%d*)` then takes the
  maximal digit run after that colon and, being unanchored, ignores the
  rest of the string.
-/

/-- Split a character list at its last `':'`: returns the parts strictly
before and strictly after that colon. -/
def splitLastColon : List Char → Option (List Char × List Char)
  | [] => none
  | c :: cs =>
    match splitLastColon cs with
    | some (a, b) => some (c :: a, b)
    | none => if c = ':' then some ([], cs) else none

/-- Attempt the pattern `(%d+):(.+):(%d*)` anchored at the start of `cs`:
`%d+` takes the maximal digit run (which must be nonempty and followed by
`:`), `(.+):` splits the remainder at its last colon (needing at least one
character before it), `(%d*)` takes the digits right after that colon. -/
def matchHere (cs : List Char) : Option (List Char × List Char × List Char) :=
  if (cs.takeWhile (fun c => c.isDigit)).isEmpty then none
  else
    match cs.drop (cs.takeWhile (fun c => c.isDigit)).length with
    | c :: rest =>
      if c = ':' then
        match splitLastColon rest with
        | some (m, b) =>
          if m.isEmpty then none
          else some (cs.takeWhile (fun c => c.isDigit), m, b.takeWhile (fun c => c.isDigit))
        | none => none
      else none
    | [] => none

/-- The unanchored scan: try `matchHere` at every start position, leftmost
first, as `string.match` does. -/
def luaScan : List Char → Option (List Char × List Char × List Char)
  | [] => none
  | c :: cs =>
    match matchHere (c :: cs) with
    | some r => some r
    | none => luaScan cs

/-- `string.match(s, '(%d+):(.+):(%d*)')` with its three captures. -/
def luaMatch (s : String) : Option (String × String × String) :=
  (luaScan s.data).map (fun x => (String.mk x.1, String.mk x.2.1, String.mk x.2.2))

/-!
### PriorityQueue (`src/proteraios/queue.py`, class `PriorityQueue`)

The sorted set orders members by score and then by name (the byte order
Redis uses on members with equal scores).
-/

/-- A Redis sorted set: member names paired with scores, names unique. -/
abbrev PQ := List (String × Int)

/-- The smaller of two sorted-set entries in (score, member) order. -/
def zminP (a b : String × Int) : String × Int :=
  if b.2 < a.2 ∨ (b.2 = a.2 ∧ b.1 < a.1) then b else a

/-- The least entry of the sorted set in (score, member) order: the entry
`ZRANGE key 0 0` returns. -/
def zmin : PQ → Option (String × Int)
  | [] => none
  | p :: ps =>
    match zmin ps with
    | none => some p
    | some q => some (zminP p q)

/-- `redis.call('zrange', KEYS[1], 0, 0)`: a list holding the minimal
member, or the empty list when the set is empty. -/
def zrangeHead (st : PQ) : List String :=
  match zmin st with
  | none => []
  | some q => [q.1]

/-- `ZREM`: drop the member named `m`. -/
def zrem (st : PQ) (m : String) : PQ := st.filter (fun p => p.1 != m)

/-- The `zpop_script` Lua script (queue.py lines 78-88).  `zrange` returns a
table even for an empty set, and a table is truthy in Lua, so the
`if result` branch is always taken; on an empty set `msg` is then `nil` and
`redis.call('zrem', KEYS[1], msg)` aborts the script with
"Lua redis command arguments must be strings or integers". -/
def zpopScript (st : PQ) : Except PQ (String × PQ) :=
  match (zrangeHead st).head? with
  | none => Except.error st
  | some m => Except.ok (m, zrem st m)

/-- `ZADD key score msg` as `StrictRedis.zadd` exposes it: insert the member
with the score when absent (returning 1), otherwise overwrite its score
(returning 0). -/
def zadd (st : PQ) (score : Int) (msg : String) : Nat × PQ :=
  if msg ∈ st.map Prod.fst then
    (0, st.map (fun p => if p.1 = msg then (msg, score) else p))
  else
    (1, st ++ [(msg, score)])

/-- `PriorityQueue.push` (queue.py lines 94-108): delegates to `zadd` and
returns its count. -/
def pq_push (st : PQ) (msg : String) (score : Int) : Nat × PQ :=
  zadd st score msg

/-- `PriorityQueue.pop` (queue.py lines 110-115): runs `zpop_script`. -/
def pq_pop (st : PQ) : Except PQ (String × PQ) :=
  zpopScript st

/-!
### ReliableQueue (`src/proteraios/queue.py`, class `ReliableQueue`)
-/

/-- The state a `ReliableQueue` named `n` keeps in Redis: the ring list at
key `n` and the completion set at key `n:completed_set`. -/
structure RQ where
  ring : List String
  completed : Finset String
deriving DecidableEq

/-- A queue with no envelopes and an empty completion set. -/
def RQ.emptyQ : RQ := ⟨[], ∅⟩

/-- `ReliableQueue.push` (queue.py lines 199-204): encode the payload as
`"%d:%s:" % (len(msg), msg)` and `LPUSH` it. -/
def rq_push (q : RQ) (msg : String) : RQ :=
  { q with ring := (toString msg.length ++ ":" ++ msg ++ ":") :: q.ring }

/-- The `rpop_script` Lua script (queue.py lines 158-180).  `RPOP` one
envelope from the tail; parse it; if never claimed, re-insert a copy
stamped with `ARGV[1]` (the current time) and return `{msg, ''}`; if
claimed and not completed, re-insert the original envelope unchanged and
return `{msg, ts}`; if claimed and completed, drop it, clear the
completion-set entry and return nil.  When the parse fails (the captures
are nil) the `sismember` call aborts the script after the `RPOP` already
happened. -/
def rpopScript (q : RQ) (now : Nat) : Except RQ (Option (String × String) × RQ) :=
  match q.ring.getLast? with
  | none => Except.ok (none, q)
  | some elem =>
    let rest := q.ring.dropLast
    match luaMatch elem with
    | none => Except.error { q with ring := rest }
    | some (l, msg, ts) =>
      if ts = "" then
        Except.ok (some (msg, ts),
          { q with ring := (l ++ ":" ++ msg ++ ":" ++ toString now) :: rest })
      else if msg ∈ q.completed then
        Except.ok (none, { ring := rest, completed := q.completed.erase msg })
      else
        Except.ok (some (msg, ts), { q with ring := elem :: rest })

/-- Python `int(..)` applied to the digit-only strings the `%d*` capture
produces: the decimal value of the string. -/
def pyInt (s : String) : Nat :=
  s.data.foldl (fun a c => a * 10 + (c.toNat - 48)) 0

/-- `ReliableQueue.pop` (queue.py lines 206-237): run `rpop_script` with the
current time; map its reply through `ts = int(ts) if ts else None`. -/
def rq_pop (q : RQ) (now : Nat) : Except RQ (Option (String × Option Nat) × RQ) :=
  match rpopScript q now with
  | Except.error q' => Except.error q'
  | Except.ok (none, q') => Except.ok (none, q')
  | Except.ok (some (msg, ts), q') =>
    Except.ok (some (msg, if ts = "" then none else some (pyInt ts)), q')

/-- `ReliableQueue.complete` (queue.py lines 239-244): `SADD` the payload to
the completion set. -/
def rq_complete (q : RQ) (msg : String) : RQ :=
  { q with completed := insert msg q.completed }

/-- The envelope text `ReliableQueue.remove` rebuilds from a
`(payload, timestamp)` pair, `'%d:%s:%s' % (len(item[0]), item[0], ts)`
with `ts = str(item[1]) if item[1] else ''` — Python renders a `None` (or
falsy `0`) timestamp as the empty string. -/
def encodeItem (item : String × Option Nat) : String :=
  toString item.1.length ++ ":" ++ item.1 ++ ":" ++
    (match item.2 with
     | some t => if t = 0 then "" else toString t
     | none => "")

/-- `ReliableQueue.remove` (queue.py lines 246-255): `LREM` every occurrence
of the rebuilt envelope text and `SREM` the payload from the completion
set. -/
def rq_remove (q : RQ) (item : String × Option Nat) : RQ :=
  { ring := q.ring.filter (fun e => e != encodeItem item),
    completed := q.completed.erase item.1 }

/-- The `redo_script` Lua script (queue.py lines 181-188).  `LREM` every
occurrence of `ARGV[1]` (the full encoded envelope) from the ring; `SREM`
`ARGV[1]` — the encoded envelope, not the payload — from the completion
set; re-parse `ARGV[1]` and `LPUSH` a copy restamped with `ARGV[2]`; return
the payload.  If the parse fails, the string concatenation of the nil
captures aborts the script after the `LREM`/`SREM` already happened. -/
def redoScript (q : RQ) (encoded : String) (now : Nat) : Except RQ (String × RQ) :=
  let ring1 := q.ring.filter (fun e => e != encoded)
  let comp1 := q.completed.erase encoded
  match luaMatch encoded with
  | none => Except.error { ring := ring1, completed := comp1 }
  | some (l, msg, _) =>
    Except.ok (msg, { ring := (l ++ ":" ++ msg ++ ":" ++ toString now) :: ring1,
                      completed := comp1 })

/-- `ReliableQueue.reprocess` (queue.py lines 257-260): encode
`str(len(msg)) + ':' + msg + ':' + str(cts)` and run `redo_script` with the
current time. -/
def rq_reprocess (q : RQ) (msg : String) (cts : Nat) (now : Nat) : Except RQ (String × RQ) :=
  redoScript q (toString msg.length ++ ":" ++ msg ++ ":" ++ toString cts) now

/-!
### JobClient (`src/proteraios/client.py`)

The job store maps job ids to their hash records.  Payload serialization
(`json.dumps`) is out of scope per the spec and kept as the payload itself.
The `sleep_func` parameter is idealized: each `sleep_func(poll_freq)` call
advances the wall clock by `poll_freq` and nothing else advances it.
-/

/-- A Job hash record (`Client.job_tpl`). -/
structure Job where
  id : String
  msg : String
  create_time : Nat
  timeout : Option Nat
  finish_time : Option Nat
  status : String
  result : Option String
  errors : Option String
deriving DecidableEq

/-- The Redis hash keyspace holding job records. -/
abbrev Store := List (String × Job)

/-- `HGETALL`-style read of the record stored under `k`. -/
def sfind (st : Store) (k : String) : Option Job :=
  (st.find? (fun p => p.1 == k)).map Prod.snd

/-- `HMSET k record`: bind `k` to the record, replacing any previous binding. -/
def hmset (st : Store) (k : String) (j : Job) : Store :=
  (k, j) :: st.filter (fun p => p.1 != k)

/-- `HSET k 'status' s`: overwrite the status field of the record at `k`.
The client only calls this after `hmset` created the record, so the model
updates in place. -/
def hsetStatus (st : Store) (k : String) (s : String) : Store :=
  st.map (fun p => if p.1 = k then (p.1, { p.2 with status := s }) else p)

/-- `DEL k`. -/
def delStore (st : Store) (k : String) : Store :=
  st.filter (fun p => p.1 != k)

/-- A status on which `_poll` stops (`('complete', 'fail', 'expire')`). -/
def isTerminal (s : String) : Bool :=
  s == "complete" || s == "fail" || s == "expire"

/-- The `while True` loop of `Client._poll` (client.py lines 56-68), with
explicit fuel: if the clock passed the deadline, write status `expire` and
stop; otherwise read the status, stop when it is terminal, and sleep for
`pollFreq` before the next round. -/
def pollLoop (id : String) (deadline pollFreq : Nat) :
    Nat → Store → Nat → Store × Nat
  | 0, st, clock => (st, clock)
  | fuel + 1, st, clock =>
    if deadline < clock then (hsetStatus st id "expire", clock)
    else
      match (sfind st id).map Job.status with
      | some s =>
        if isTerminal s then (st, clock)
        else pollLoop id deadline pollFreq fuel st (clock + pollFreq)
      | none => pollLoop id deadline pollFreq fuel st (clock + pollFreq)

/-- `Client.send` (client.py lines 34-54 with `_create_job` and `_poll`):
build the record with status `new`, `HMSET` it, push the id onto the
configured queue (the missing `factory` helper is modelled from the spec as
the FIFO variant: `RPUSH` of the id), poll until a terminal status or the
deadline `now + (timeout or max_poll_time)` — Python treats a `0` timeout
as falsy — then `HGETALL` the record, `DEL` it and return the read. -/
def clientSend (st : Store) (queue : List String) (id payload : String)
    (timeout : Option Nat) (maxPoll pollFreq now fuel : Nat) :
    Option Job × Store × List String :=
  let job : Job :=
    { id := id, msg := payload, create_time := now, timeout := timeout,
      finish_time := none, status := "new", result := none, errors := none }
  let st1 := hmset st id job
  let q1 := queue ++ [id]
  let tmo := match timeout with
    | some t => if t = 0 then maxPoll else t
    | none => maxPoll
  let deadline := now + tmo
  let st2 := (pollLoop id deadline pollFreq fuel st1 now).1
  let ret := sfind st2 id
  (ret, delStore st2 id, q1)

deriving instance DecidableEq for Except

/-!
### Decimal representations

`push`, `pop` and `reprocess` write numbers (payload lengths, timestamps)
into envelope strings as decimal text (`"%d"`, `str(..)`, the redis-py
conversion of integer script arguments).  These lemmas record that such
text is a nonempty run of digit characters and that `pyInt` reads it back.
-/

theorem digitChar_isDigit {k : Nat} (h : k < 10) : (Nat.digitChar k).isDigit = true := by
  interval_cases k <;> decide

theorem digitChar_val {k : Nat} (h : k < 10) : (Nat.digitChar k).toNat - 48 = k := by
  interval_cases k <;> decide

theorem toDigitsCore_all_digits :
    ∀ (fuel n : Nat) (ds : List Char), (∀ c ∈ ds, c.isDigit = true) →
      ∀ c ∈ Nat.toDigitsCore 10 fuel n ds, c.isDigit = true := by
  intro fuel
  induction fuel with
  | zero => intro n ds h c hc; exact h c hc
  | succ f ih =>
    intro n ds h c hc
    simp only [Nat.toDigitsCore] at hc
    have hds : ∀ c ∈ (Nat.digitChar (n % 10) :: ds), c.isDigit = true := by
      intro c hc
      rcases List.mem_cons.mp hc with h1 | h1
      · subst h1; exact digitChar_isDigit (Nat.mod_lt _ (by norm_num))
      · exact h c h1
    by_cases h10 : n / 10 = 0
    · rw [if_pos h10] at hc
      exact hds c hc
    · rw [if_neg h10] at hc
      exact ih (n / 10) _ hds c hc

theorem toDigitsCore_ne_nil :
    ∀ (fuel n : Nat) (ds : List Char), ds ≠ [] → Nat.toDigitsCore 10 fuel n ds ≠ [] := by
  intro fuel
  induction fuel with
  | zero => intro n ds h; exact h
  | succ f ih =>
    intro n ds h
    simp only [Nat.toDigitsCore]
    by_cases h10 : n / 10 = 0
    · rw [if_pos h10]; exact List.cons_ne_nil _ _
    · rw [if_neg h10]; exact ih (n / 10) _ (List.cons_ne_nil _ _)

theorem repr_data (n : Nat) : (Nat.repr n).data = Nat.toDigits 10 n := rfl

theorem toString_nat (n : Nat) : toString n = Nat.repr n := rfl

theorem repr_all_digits (n : Nat) : ∀ c ∈ (Nat.repr n).data, c.isDigit = true := by
  rw [repr_data]
  simp only [Nat.toDigits]
  exact toDigitsCore_all_digits (n + 1) n [] (by intro c hc; cases hc)

theorem repr_data_ne_nil (n : Nat) : (Nat.repr n).data ≠ [] := by
  rw [repr_data]
  simp only [Nat.toDigits, Nat.toDigitsCore]
  by_cases h10 : n / 10 = 0
  · rw [if_pos h10]; exact List.cons_ne_nil _ _
  · rw [if_neg h10]; exact toDigitsCore_ne_nil n (n / 10) _ (List.cons_ne_nil _ _)

theorem repr_ne_empty (n : Nat) : Nat.repr n ≠ "" := by
  intro h
  apply repr_data_ne_nil n
  rw [h]

theorem toDigitsCore_append :
    ∀ (fuel n : Nat) (ds : List Char),
      Nat.toDigitsCore 10 fuel n ds = Nat.toDigitsCore 10 fuel n [] ++ ds := by
  intro fuel
  induction fuel with
  | zero => intro n ds; rfl
  | succ f ih =>
    intro n ds
    simp only [Nat.toDigitsCore]
    by_cases h10 : n / 10 = 0
    · rw [if_pos h10, if_pos h10]; rfl
    · rw [if_neg h10, if_neg h10, ih (n / 10) [Nat.digitChar (n % 10)],
        ih (n / 10) (Nat.digitChar (n % 10) :: ds), List.append_assoc]
      rfl

theorem toDigitsCore_fuel :
    ∀ (f1 f2 n : Nat) (ds : List Char), n < f1 → n < f2 →
      Nat.toDigitsCore 10 f1 n ds = Nat.toDigitsCore 10 f2 n ds := by
  intro f1
  induction f1 with
  | zero => intro f2 n ds h1 _; omega
  | succ f ih =>
    intro f2 n ds h1 h2
    cases f2 with
    | zero => omega
    | succ f2 =>
      simp only [Nat.toDigitsCore]
      by_cases h10 : n / 10 = 0
      · rw [if_pos h10, if_pos h10]
      · rw [if_neg h10, if_neg h10]
        have hn : 0 < n := by
          rcases Nat.eq_zero_or_pos n with h | h
          · exact absurd (by simp [h]) h10
          · exact h
        have hlt : n / 10 < n := Nat.div_lt_self hn (by norm_num)
        exact ih f2 (n / 10) _ (by omega) (by omega)

theorem toDigits_rec (n : Nat) (h : 10 ≤ n) :
    Nat.toDigits 10 n = Nat.toDigits 10 (n / 10) ++ [Nat.digitChar (n % 10)] := by
  have h10 : n / 10 ≠ 0 := by omega
  simp only [Nat.toDigits, Nat.toDigitsCore]
  rw [if_neg h10, toDigitsCore_append n (n / 10) [Nat.digitChar (n % 10)]]
  congr 1
  have hlt : n / 10 < n := Nat.div_lt_self (by omega) (by norm_num)
  exact toDigitsCore_fuel n (n / 10 + 1) (n / 10) [] (by omega) (by omega)

theorem toDigits_lt (n : Nat) (h : n < 10) : Nat.toDigits 10 n = [Nat.digitChar n] := by
  have h10 : n / 10 = 0 := Nat.div_eq_of_lt h
  simp only [Nat.toDigits, Nat.toDigitsCore]
  rw [if_pos h10, Nat.mod_eq_of_lt h]

theorem foldl_toDigits (n : Nat) :
    ∀ a : Nat, List.foldl (fun a c => a * 10 + (c.toNat - 48)) a (Nat.toDigits 10 n)
      = a * 10 ^ (Nat.toDigits 10 n).length + n := by
  induction n using Nat.strong_induction_on with
  | _ n ih =>
    intro a
    by_cases h : n < 10
    · rw [toDigits_lt n h]
      simp [List.foldl, digitChar_val h]
    · have h10 : 10 ≤ n := le_of_not_lt h
      have hlt : n / 10 < n := Nat.div_lt_self (by omega) (by norm_num)
      rw [toDigits_rec n h10, List.foldl_append, ih (n / 10) hlt a]
      simp only [List.foldl, List.length_append, List.length_cons, List.length_nil]
      rw [digitChar_val (Nat.mod_lt _ (by norm_num))]
      rw [pow_succ]
      have hx : a * (10 ^ (Nat.toDigits 10 (n / 10)).length * 10)
          = a * 10 ^ (Nat.toDigits 10 (n / 10)).length * 10 := by ring
      rw [hx]
      omega

theorem pyInt_repr (n : Nat) : pyInt (Nat.repr n) = n := by
  unfold pyInt
  rw [repr_data, foldl_toDigits n 0]
  omega

theorem pyInt_toString (n : Nat) : pyInt (toString n) = n := pyInt_repr n

/-!
### Correctness of the pattern match on well-formed envelopes

For every nonempty payload and digit-only timestamp field, the pattern
recovers exactly the three fields of `length:payload:timestamp`.  (For the
empty payload the pattern fails — the basis of the counterexample below.)
-/

theorem takeWhile_append_all {p : Char → Bool} {D xs : List Char}
    (h : ∀ c ∈ D, p c = true) :
    (D ++ xs).takeWhile p = D ++ xs.takeWhile p := by
  induction D with
  | nil => rfl
  | cons c D ih =>
    have hc : p c = true := h c (List.mem_cons_self c D)
    simp only [List.cons_append, List.takeWhile_cons, hc, if_true]
    rw [ih (fun c hc => h c (List.mem_cons_of_mem _ hc))]

theorem takeWhile_eq_self_all {p : Char → Bool} {l : List Char}
    (h : ∀ c ∈ l, p c = true) : l.takeWhile p = l := by
  induction l with
  | nil => rfl
  | cons c l ih =>
    have hc : p c = true := h c (List.mem_cons_self c l)
    simp only [List.takeWhile_cons, hc, if_true]
    rw [ih (fun c hc => h c (List.mem_cons_of_mem _ hc))]

theorem splitLastColon_none {l : List Char} (h : ∀ c ∈ l, c ≠ ':') :
    splitLastColon l = none := by
  induction l with
  | nil => rfl
  | cons c l ih =>
    simp only [splitLastColon, ih (fun c hc => h c (List.mem_cons_of_mem _ hc))]
    rw [if_neg (h c (List.mem_cons_self c l))]

theorem splitLastColon_append {xs ys : List Char} (h : ∀ c ∈ ys, c ≠ ':') :
    splitLastColon (xs ++ ':' :: ys) = some (xs, ys) := by
  induction xs with
  | nil =>
    simp only [List.nil_append, splitLastColon, splitLastColon_none h]
    simp
  | cons c xs ih =>
    have ih2 : splitLastColon (xs.append (':' :: ys)) = some (xs, ys) := ih
    simp only [List.cons_append, splitLastColon]
    rw [ih2]

theorem digit_ne_colon {c : Char} (h : c.isDigit = true) : c ≠ ':' := by
  intro he
  rw [he] at h
  exact absurd h (by decide)

theorem matchHere_encode {D m t : List Char} (hD : D ≠ [])
    (hDd : ∀ c ∈ D, c.isDigit = true) (hm : m ≠ [])
    (htd : ∀ c ∈ t, c.isDigit = true) :
    matchHere (D ++ ':' :: (m ++ ':' :: t)) = some (D, m, t) := by
  have htake : (D ++ ':' :: (m ++ ':' :: t)).takeWhile (fun c => c.isDigit) = D := by
    rw [takeWhile_append_all hDd, List.takeWhile_cons]
    have hc : (':' : Char).isDigit = false := by decide
    rw [hc]
    simp
  have hsplit : splitLastColon (m ++ ':' :: t) = some (m, t) :=
    splitLastColon_append (fun c hc => digit_ne_colon (htd c hc))
  have hDe : D.isEmpty = false := by
    cases D with
    | nil => exact absurd rfl hD
    | cons a l => rfl
  have hme : m.isEmpty = false := by
    cases m with
    | nil => exact absurd rfl hm
    | cons a l => rfl
  unfold matchHere
  rw [htake, hDe, List.drop_left]
  simp only [Bool.false_eq_true, if_false, hsplit, hme, takeWhile_eq_self_all htd]
  simp

theorem luaScan_of_matchHere {c : Char} {cs : List Char}
    {r : List Char × List Char × List Char} (h : matchHere (c :: cs) = some r) :
    luaScan (c :: cs) = some r := by
  simp only [luaScan, h]

theorem string_data_append (a b : String) : (a ++ b).data = a.data ++ b.data := by
  cases a
  cases b
  rfl

theorem luaMatch_enc (L m t : String) (hL1 : L.data ≠ [])
    (hL2 : ∀ c ∈ L.data, c.isDigit = true) (hm : m.data ≠ [])
    (ht : ∀ c ∈ t.data, c.isDigit = true) :
    luaMatch (L ++ ":" ++ m ++ ":" ++ t) = some (L, m, t) := by
  have hdata : (L ++ ":" ++ m ++ ":" ++ t).data
      = L.data ++ ':' :: (m.data ++ ':' :: t.data) := by
    simp only [string_data_append]
    simp [String.data]
  have hmh : matchHere (L.data ++ ':' :: (m.data ++ ':' :: t.data))
      = some (L.data, m.data, t.data) := matchHere_encode hL1 hL2 hm ht
  unfold luaMatch
  rw [hdata]
  rcases hL : L.data with _ | ⟨c, cs⟩
  · exact absurd hL hL1
  · rw [hL] at hmh
    rw [List.cons_append, luaScan_of_matchHere (by rw [← List.cons_append]; exact hmh)]
    simp only [Option.map]
    rw [← hL]

theorem string_append_empty (s : String) : s ++ "" = s := by
  cases s with
  | mk d =>
    show String.mk (d ++ []) = String.mk d
    rw [List.append_nil]

theorem luaMatch_enc_nots (L m : String) (hL1 : L.data ≠ [])
    (hL2 : ∀ c ∈ L.data, c.isDigit = true) (hm : m.data ≠ []) :
    luaMatch (L ++ ":" ++ m ++ ":") = some (L, m, "") := by
  rw [← string_append_empty (L ++ ":" ++ m ++ ":")]
  exact luaMatch_enc L m "" hL1 hL2 hm (by intro c hc; cases hc)

theorem data_ne_nil_of_ne_empty {s : String} (h : s ≠ "") : s.data ≠ [] := by
  intro hd
  apply h
  cases s
  simp only [String.data] at hd
  rw [hd]

/-- The parse of a pushed or restamped envelope, packaged for the queue
operations: the length field is `toString n` and the timestamp field is
either empty or `toString k`. -/
theorem luaMatch_push (msg : String) (h : msg ≠ "") (n : Nat) :
    luaMatch (toString n ++ ":" ++ msg ++ ":") = some (toString n, msg, "") :=
  luaMatch_enc_nots (toString n) msg (repr_data_ne_nil n) (repr_all_digits n)
    (data_ne_nil_of_ne_empty h)

theorem luaMatch_stamped (msg : String) (h : msg ≠ "") (n k : Nat) :
    luaMatch (toString n ++ ":" ++ msg ++ ":" ++ toString k)
      = some (toString n, msg, toString k) :=
  luaMatch_enc (toString n) msg (toString k) (repr_data_ne_nil n) (repr_all_digits n)
    (data_ne_nil_of_ne_empty h) (repr_all_digits k)

/-!
### PriorityQueue lemmas
-/

theorem zmin_eq_none {st : PQ} (h : zmin st = none) : st = [] := by
  cases st with
  | nil => rfl
  | cons p ps =>
    simp only [zmin] at h
    rcases hz : zmin ps with _ | q <;> rw [hz] at h <;> simp at h

theorem zmin_mem : ∀ {st : PQ} {q : String × Int}, zmin st = some q → q ∈ st := by
  intro st
  induction st with
  | nil => intro q h; cases h
  | cons p ps ih =>
    intro q h
    simp only [zmin] at h
    rcases hz : zmin ps with _ | r <;> rw [hz] at h
    · cases h
      exact List.mem_cons_self p ps
    · cases h
      unfold zminP
      by_cases hc : r.2 < p.2 ∨ (r.2 = p.2 ∧ r.1 < p.1)
      · rw [if_pos hc]
        exact List.mem_cons_of_mem p (ih hz)
      · rw [if_neg hc]
        exact List.mem_cons_self p ps

theorem zmin_le : ∀ {st : PQ} {q : String × Int}, zmin st = some q →
    ∀ p ∈ st, q.2 ≤ p.2 := by
  intro st
  induction st with
  | nil => intro q h; cases h
  | cons p ps ih =>
    intro q h r hr
    simp only [zmin] at h
    rcases hz : zmin ps with _ | m <;> rw [hz] at h
    · have hps : ps = [] := zmin_eq_none hz
      cases h
      subst hps
      rcases List.mem_cons.mp hr with h1 | h1
      · rw [h1]
      · cases h1
    · cases h
      unfold zminP
      by_cases hc : m.2 < p.2 ∨ (m.2 = p.2 ∧ m.1 < p.1)
      · rw [if_pos hc]
        rcases List.mem_cons.mp hr with h1 | h1
        · rw [h1]
          rcases hc with h2 | h2
          · exact le_of_lt h2
          · exact le_of_eq h2.1
        · exact ih hz r h1
      · rw [if_neg hc]
        push_neg at hc
        rcases List.mem_cons.mp hr with h1 | h1
        · rw [h1]
        · exact le_trans hc.1 (ih hz r h1)

theorem zmin_of_ne_nil {st : PQ} (h : st ≠ []) : ∃ q, zmin st = some q := by
  rcases hz : zmin st with _ | q
  · exact absurd (zmin_eq_none hz) h
  · exact ⟨q, rfl⟩

theorem zpopScript_of_zmin {st : PQ} {q : String × Int} (h : zmin st = some q) :
    zpopScript st = Except.ok (q.1, zrem st q.1) := by
  unfold zpopScript zrangeHead
  rw [h]
  rfl

/-!
### ReliableQueue pop case lemmas
-/

theorem rq_pop_unclaimed {q : RQ} {e l msg : String} (he : q.ring.getLast? = some e)
    (hp : luaMatch e = some (l, msg, "")) (now : Nat) :
    rq_pop q now = Except.ok (some (msg, none),
      { q with ring := (l ++ ":" ++ msg ++ ":" ++ toString now) :: q.ring.dropLast }) := by
  simp only [rq_pop, rpopScript, he, hp]
  simp

theorem rq_pop_claimed_fresh {q : RQ} {e l msg ts : String}
    (he : q.ring.getLast? = some e) (hp : luaMatch e = some (l, msg, ts))
    (hts : ts ≠ "") (hmem : msg ∉ q.completed) (now : Nat) :
    rq_pop q now = Except.ok (some (msg, some (pyInt ts)),
      { q with ring := e :: q.ring.dropLast }) := by
  simp only [rq_pop, rpopScript, he, hp]
  simp [hts, hmem]

theorem rq_pop_claimed_completed {q : RQ} {e l msg ts : String}
    (he : q.ring.getLast? = some e) (hp : luaMatch e = some (l, msg, ts))
    (hts : ts ≠ "") (hmem : msg ∈ q.completed) (now : Nat) :
    rq_pop q now = Except.ok (none,
      { ring := q.ring.dropLast, completed := q.completed.erase msg }) := by
  simp only [rq_pop, rpopScript, he, hp]
  simp [hts, hmem]

/-!
### JobClient lemmas
-/

theorem sfind_delStore (st : Store) (k : String) : sfind (delStore st k) k = none := by
  induction st with
  | nil => rfl
  | cons a l ih =>
    by_cases h : a.1 = k
    · simp only [delStore, List.filter] at ih ⊢
      rw [show (a.1 != k) = false by simp [h]]
      exact ih
    · simp only [delStore, List.filter] at ih ⊢
      rw [show (a.1 != k) = true by simp [h]]
      simp only [sfind, List.find?] at ih ⊢
      rw [show (a.1 == k) = false by simp [h]]
      exact ih

theorem sfind_hmset (st : Store) (k : String) (j : Job) : sfind (hmset st k j) k = some j := by
  simp [sfind, hmset, List.find?]

theorem sfind_hsetStatus_of_sfind {st : Store} {k : String} {j : Job} (s : String)
    (h : sfind st k = some j) :
    sfind (hsetStatus st k s) k = some { j with status := s } := by
  induction st with
  | nil => cases h
  | cons a l ih =>
    by_cases hk : a.1 = k
    · simp only [sfind, List.find?, show (a.1 == k) = true by simp [hk]] at h
      cases h
      simp only [hsetStatus, List.map, if_pos hk, sfind, List.find?,
        show (a.1 == k) = true by simp [hk]]
      rfl
    · simp only [sfind, List.find?, show (a.1 == k) = false by simp [hk]] at h
      simp only [hsetStatus, List.map, if_neg hk, sfind, List.find?,
        show (a.1 == k) = false by simp [hk]]
      exact ih h

theorem pollLoop_expire (id : String) (dl freq : Nat) (j : Job) :
    ∀ (fuel clock : Nat) (st : Store), sfind st id = some j → j.status = "new" →
      dl < clock + fuel * freq →
      (pollLoop id dl freq (fuel + 1) st clock).1 = hsetStatus st id "expire" := by
  intro fuel
  induction fuel with
  | zero =>
    intro clock st h1 h2 h3
    simp only [Nat.zero_mul, Nat.add_zero] at h3
    unfold pollLoop
    rw [if_pos h3]
  | succ f ih =>
    intro clock st h1 h2 h3
    by_cases hc : dl < clock
    · unfold pollLoop
      rw [if_pos hc]
    · unfold pollLoop
      rw [if_neg hc, h1]
      simp only [Option.map, h2, show isTerminal "new" = false from rfl,
        Bool.false_eq_true, if_false]
      exact ih (clock + freq) st h1 h2
        (by have hx : (f + 1) * freq = f * freq + freq := by ring
            omega)

/-!
### The claims
-/

/-- Claim C1.  The claim says `reprocess(payload, old_timestamp)` removes the
payload from the completion set.  The code does not: `redo_script` runs
`SREM` on `ARGV[1]`, the full encoded envelope, while the completion set
holds bare payloads, so the `SREM` can never match and the payload stays
marked completed.  Evaluated at the failing input — ring `["2:hi:100"]`,
completion set `{"hi"}`, `reprocess("hi", 100)` at time 200 — every other
part of the claim holds (envelope deleted, fresh envelope `"2:hi:200"` at
the head, payload returned, length 1 before and after), but `"hi"` is still
in the completion set, and the next `pop` therefore retires the freshly
reclaimed copy: exactly what the spec's defensive clause is meant to
prevent. -/
theorem C1_reprocess_keeps_completion_marker :
    rq_reprocess ⟨["2:hi:100"], {"hi"}⟩ "hi" 100 200
      = Except.ok ("hi", ⟨["2:hi:200"], {"hi"}⟩)
    ∧ "hi" ∈ (⟨["2:hi:200"], {"hi"}⟩ : RQ).completed
    ∧ (⟨["2:hi:200"], {"hi"}⟩ : RQ).ring.length = (⟨["2:hi:100"], {"hi"}⟩ : RQ).ring.length
    ∧ rq_pop ⟨["2:hi:200"], {"hi"}⟩ 300 = Except.ok (none, ⟨[], ∅⟩) := by
  refine ⟨by decide, by decide, by decide, by decide⟩

/-- Claim C2, counterexample.  The claim quantifies over every payload, but
for the empty payload the pushed envelope `"0::"` does not match the Lua
pattern (`.+` needs at least one character), so `pop` aborts with a script
error — and the `RPOP` that already happened drops the envelope — instead
of returning `("", no timestamp)` with the queue length still 1. -/
theorem C2_empty_payload_counterexample :
    rq_push RQ.emptyQ "" = (⟨["0::"], ∅⟩ : RQ)
    ∧ rq_pop ⟨["0::"], ∅⟩ 5 = Except.error ⟨[], ∅⟩ := by
  refine ⟨by decide, by decide⟩

/-- Claim C2 (amended: for every *nonempty* payload).  Pushing a nonempty
payload onto an empty reliable queue and popping returns
`(payload, no timestamp)`, re-inserts at the head a copy of the envelope
stamped with the current instant, and leaves the queue length at 1. -/
theorem C2_first_pop_claims (msg : String) (h : msg ≠ "") (now : Nat) :
    rq_pop (rq_push RQ.emptyQ msg) now
      = Except.ok (some (msg, none),
          ⟨[toString msg.length ++ ":" ++ msg ++ ":" ++ toString now], ∅⟩)
    ∧ (⟨[toString msg.length ++ ":" ++ msg ++ ":" ++ toString now], ∅⟩ : RQ).ring.length = 1 := by
  constructor
  · have he : (rq_push RQ.emptyQ msg).ring.getLast?
        = some (toString msg.length ++ ":" ++ msg ++ ":") := rfl
    exact rq_pop_unclaimed he (luaMatch_push msg h msg.length) now
  · rfl

/-- Witness for C2: the amended theorem applied to payload `"hi"` at
time 42. -/
theorem C2_first_pop_claims_witness :
    rq_pop (rq_push RQ.emptyQ "hi") 42
      = Except.ok (some ("hi", none),
          ⟨[toString ("hi" : String).length ++ ":" ++ "hi" ++ ":" ++ toString 42], ∅⟩) :=
  (C2_first_pop_claims "hi" (by decide) 42).1

/-- Claim C3.  Popping an envelope whose claim timestamp is non-empty
(a numeric instant `t`) and whose payload is not in the completion set
re-inserts the original envelope unchanged at the head, leaves the
completion set untouched and the length unchanged, and returns
`(payload, t)`. -/
theorem C3_pop_claimed_not_completed (q : RQ) (e l msg : String) (t now : Nat)
    (he : q.ring.getLast? = some e) (hp : luaMatch e = some (l, msg, toString t))
    (hmem : msg ∉ q.completed) :
    rq_pop q now = Except.ok (some (msg, some t), { q with ring := e :: q.ring.dropLast })
    ∧ ({ q with ring := e :: q.ring.dropLast } : RQ).completed = q.completed
    ∧ ({ q with ring := e :: q.ring.dropLast } : RQ).ring.length = q.ring.length := by
  have hne : q.ring ≠ [] := by
    intro h0
    rw [h0] at he
    cases he
  refine ⟨?_, rfl, ?_⟩
  · have := rq_pop_claimed_fresh he hp (repr_ne_empty t) hmem now
    rw [pyInt_toString t] at this
    exact this
  · have hl := List.length_dropLast q.ring
    have hpos : 0 < q.ring.length := List.length_pos.mpr hne
    simp only [List.length_cons, hl]
    omega

/-- Witness for C3: a queue holding one claimed envelope `"2:hi:7"`,
payload not completed. -/
theorem C3_pop_claimed_not_completed_witness :
    rq_pop ⟨["2:hi:7"], ∅⟩ 11 = Except.ok (some ("hi", some 7), ⟨["2:hi:7"], ∅⟩) :=
  (C3_pop_claimed_not_completed ⟨["2:hi:7"], ∅⟩ "2:hi:7" "2" "hi" 7 11
    (by decide) (by decide) (by decide)).1

/-- Claim C4.  Popping an envelope whose claim timestamp is non-empty and
whose payload is in the completion set removes the payload from the
completion set and does not re-insert the envelope: the length drops by
one, and when the envelope occurred exactly once in the ring it is gone
from the ring.  The concrete cycle of the spec: push `"hi"`, pop (claims
it), `complete("hi")`, pop (retires it, returning empty, size 0), and a
further pop still returns empty. -/
theorem C4_pop_completed_retires (q : RQ) (e l msg ts : String) (now : Nat)
    (he : q.ring.getLast? = some e) (hp : luaMatch e = some (l, msg, ts))
    (hts : ts ≠ "") (hmem : msg ∈ q.completed) :
    rq_pop q now = Except.ok (none, ⟨q.ring.dropLast, q.completed.erase msg⟩)
    ∧ q.ring.dropLast.length = q.ring.length - 1
    ∧ (q.ring.count e = 1 → e ∉ q.ring.dropLast)
    ∧ rq_pop (rq_push RQ.emptyQ "hi") 10 = Except.ok (some ("hi", none), ⟨["2:hi:10"], ∅⟩)
    ∧ rq_pop (rq_complete ⟨["2:hi:10"], ∅⟩ "hi") 11 = Except.ok (none, ⟨[], ∅⟩)
    ∧ (⟨[], ∅⟩ : RQ).ring.length = 0
    ∧ rq_pop ⟨[], ∅⟩ 12 = Except.ok (none, ⟨[], ∅⟩) := by
  have hne : q.ring ≠ [] := by
    intro h0
    rw [h0] at he
    cases he
  refine ⟨rq_pop_claimed_completed he hp hts hmem now, List.length_dropLast q.ring,
    ?_, by decide, by decide, by decide, by decide⟩
  intro hcount
  have hgl : q.ring.getLast hne = e := by
    rw [List.getLast?_eq_getLast q.ring hne] at he
    exact Option.some.inj he
  have hsplit : q.ring.dropLast ++ [e] = q.ring := by
    rw [← hgl]
    exact List.dropLast_append_getLast hne
  have hc : q.ring.count e = q.ring.dropLast.count e + 1 := by
    conv_lhs => rw [← hsplit]
    rw [List.count_append]
    simp
  have : q.ring.dropLast.count e = 0 := by omega
  exact List.count_eq_zero.mp this

/-- Witness for C4: a two-envelope ring whose tail envelope `"2:hi:5"` is
claimed and completed. -/
theorem C4_pop_completed_retires_witness :
    rq_pop ⟨["2:ab:", "2:hi:5"], {"hi"}⟩ 9
      = Except.ok (none, ⟨(["2:ab:", "2:hi:5"] : List String).dropLast,
          ({"hi"} : Finset String).erase "hi"⟩) :=
  (C4_pop_completed_retires ⟨["2:ab:", "2:hi:5"], {"hi"}⟩ "2:hi:5" "2" "hi" "5" 9
    (by decide) (by decide) (by decide) (by decide)).1

/-- Claim C5.  The claim (and the library's own docstring and tests) says
`PriorityQueue.pop` on an empty queue returns an empty result.  The code
fails instead: in `zpop_script`, `zrange` on an empty set returns an empty
table, which is truthy in Lua, so the script calls `zrem` with a nil
argument and aborts with a script error, which `pop` propagates. -/
theorem C5_pop_empty_queue_errors :
    pq_pop ([] : PQ) = Except.error [] ∧ zpopScript ([] : PQ) = Except.error [] :=
  ⟨rfl, rfl⟩

/-- Claim C6.  On every nonempty queue state, `pop` returns a token whose
score is minimal over the whole set and removes that token; consequently,
after pushing `(A,5)`, `(B,1)`, `(C,3)` the three successive pops yield
`B`, then `C`, then `A`.  (`pop` on the empty state is claim C5.) -/
theorem C6_pop_ascending_scores :
    (∀ st : PQ, st ≠ [] → ∃ m : String, ∃ sc : Int,
        pq_pop st = Except.ok (m, zrem st m) ∧ (m, sc) ∈ st ∧ ∀ p ∈ st, sc ≤ p.2)
    ∧ (pq_push (pq_push (pq_push [] "A" 5).2 "B" 1).2 "C" 3).2
        = [("A", 5), ("B", 1), ("C", 3)]
    ∧ pq_pop [("A", 5), ("B", 1), ("C", 3)] = Except.ok ("B", [("A", 5), ("C", 3)])
    ∧ pq_pop [("A", 5), ("C", 3)] = Except.ok ("C", [("A", 5)])
    ∧ pq_pop [("A", 5)] = Except.ok ("A", []) := by
  refine ⟨?_, by decide, by decide, by decide, by decide⟩
  intro st h
  obtain ⟨q, hq⟩ := zmin_of_ne_nil h
  refine ⟨q.1, q.2, zpopScript_of_zmin hq, ?_, zmin_le hq⟩
  have := zmin_mem hq
  simpa using this

/-- Witness for C6: the universal part applied to the one-element queue
`[("A", 5)]`. -/
theorem C6_pop_ascending_scores_witness :
    ∃ m : String, ∃ sc : Int,
      pq_pop [("A", (5 : Int))] = Except.ok (m, zrem [("A", 5)] m)
      ∧ (m, sc) ∈ [("A", (5 : Int))] ∧ ∀ p ∈ [("A", (5 : Int))], sc ≤ p.2 :=
  C6_pop_ascending_scores.1 [("A", 5)] (by decide)

/-- Claim C7.  With `max_poll_time = 5`, `poll_freq = 1`, no timeout and no
worker ever touching the store, `send` writes status `expire` once the
deadline passes and returns the full job record with that status, and the
record has been deleted from the store when `send` returns (`fuel` is any
large enough bound on the loop, 7 rounds suffice).  The final conjunct:
`send` deletes the record before returning for every configuration and
fuel, whatever terminal status polling ended on. -/
theorem C7_send_expire_and_delete (st : Store) (queue : List String)
    (id payload : String) (now k : Nat) :
    (clientSend st queue id payload none 5 1 now (k + 7)).1
      = some ⟨id, payload, now, none, none, "expire", none, none⟩
    ∧ sfind (clientSend st queue id payload none 5 1 now (k + 7)).2.1 id = none
    ∧ ∀ (st2 : Store) (q2 : List String) (id2 payload2 : String) (tmo : Option Nat)
        (maxP freq now2 fuel : Nat),
        sfind (clientSend st2 q2 id2 payload2 tmo maxP freq now2 fuel).2.1 id2 = none := by
  have hjob : sfind (hmset st id
      ⟨id, payload, now, none, none, "new", none, none⟩) id
      = some ⟨id, payload, now, none, none, "new", none, none⟩ := sfind_hmset st id _
  have hpoll : (pollLoop id (now + 5) 1 (k + 6 + 1)
        (hmset st id ⟨id, payload, now, none, none, "new", none, none⟩) now).1
      = hsetStatus (hmset st id ⟨id, payload, now, none, none, "new", none, none⟩)
          id "expire" :=
    pollLoop_expire id (now + 5) 1 _ (k + 6) now _ hjob rfl (by omega)
  refine ⟨?_, ?_, ?_⟩
  · show sfind (pollLoop id (now + 5) 1 (k + 7)
        (hmset st id ⟨id, payload, now, none, none, "new", none, none⟩) now).1 id
      = some ⟨id, payload, now, none, none, "expire", none, none⟩
    rw [show k + 7 = k + 6 + 1 by omega, hpoll]
    exact sfind_hsetStatus_of_sfind "expire" hjob
  · exact sfind_delStore _ id
  · intro st2 q2 id2 payload2 tmo maxP freq now2 fuel
    exact sfind_delStore _ id2

/-- Claim C8.  `PriorityQueue.push` keeps each token unique: pushing a token
already present returns 0 and only overwrites that token's score (same
member names, same entry count, every other entry untouched); pushing a
fresh token returns 1 and appends it; and in both cases the
no-duplicate-names invariant is preserved. -/
theorem C8_push_updates_in_place (st : PQ) (msg : String) (sc : Int)
    (hnd : (st.map Prod.fst).Nodup) :
    (msg ∈ st.map Prod.fst →
        (pq_push st msg sc).1 = 0
        ∧ (pq_push st msg sc).2.length = st.length
        ∧ (pq_push st msg sc).2.map Prod.fst = st.map Prod.fst
        ∧ (msg, sc) ∈ (pq_push st msg sc).2
        ∧ ∀ p ∈ st, p.1 ≠ msg → p ∈ (pq_push st msg sc).2)
    ∧ (msg ∉ st.map Prod.fst →
        (pq_push st msg sc).1 = 1 ∧ (pq_push st msg sc).2 = st ++ [(msg, sc)])
    ∧ ((pq_push st msg sc).2.map Prod.fst).Nodup := by
  by_cases hm : msg ∈ st.map Prod.fst
  · have hval : pq_push st msg sc
        = (0, st.map (fun p => if p.1 = msg then (msg, sc) else p)) := by
      unfold pq_push zadd
      rw [if_pos hm]
    have hnames : (st.map (fun p => if p.1 = msg then (msg, sc) else p)).map Prod.fst
        = st.map Prod.fst := by
      rw [List.map_map]
      apply List.map_congr_left
      intro p _
      by_cases hp : p.1 = msg
      · simp [hp]
      · simp [hp]
    refine ⟨fun _ => ⟨by rw [hval], by rw [hval]; exact List.length_map st _,
      by rw [hval]; exact hnames, ?_, ?_⟩, fun hc => absurd hm hc, ?_⟩
    · obtain ⟨p, hp, hp1⟩ := List.mem_map.mp hm
      rw [hval]
      refine List.mem_map.mpr ⟨p, hp, ?_⟩
      rw [if_pos hp1]
    · intro p hp hne
      rw [hval]
      refine List.mem_map.mpr ⟨p, hp, ?_⟩
      rw [if_neg hne]
    · rw [hval, hnames]
      exact hnd
  · have hval : pq_push st msg sc = (1, st ++ [(msg, sc)]) := by
      unfold pq_push zadd
      rw [if_neg hm]
    refine ⟨fun hc => absurd hc hm, fun _ => ⟨by rw [hval], by rw [hval]⟩, ?_⟩
    rw [hval]
    simp only [List.map_append, List.map_cons, List.map_nil]
    rw [List.nodup_append]
    refine ⟨hnd, List.nodup_singleton msg, ?_⟩
    intro a ha hb
    rcases List.mem_singleton.mp hb with rfl
    exact hm ha

/-- Witness for C8: re-pushing the already-present token `"A"` with a new
score returns 0 and keeps a single entry. -/
theorem C8_push_updates_in_place_witness :
    (pq_push [("A", (5 : Int))] "A" 9).1 = 0
    ∧ (pq_push [("A", (5 : Int))] "A" 9).2.length = 1 :=
  ⟨((C8_push_updates_in_place [("A", 5)] "A" 9 (by decide)).1 (by decide)).1,
   ((C8_push_updates_in_place [("A", 5)] "A" 9 (by decide)).1 (by decide)).2.1⟩

/-- Claim C9.  `remove(item)` deletes every ring envelope that structurally
matches the item's payload and timestamp (and nothing else), removes the
payload from the completion set, is idempotent, and behaves identically
whether or not the payload was a member of the completion set. -/
theorem C9_remove_idempotent (q : RQ) (item : String × Option Nat) :
    encodeItem item ∉ (rq_remove q item).ring
    ∧ item.1 ∉ (rq_remove q item).completed
    ∧ (∀ e ∈ q.ring, e ≠ encodeItem item → e ∈ (rq_remove q item).ring)
    ∧ rq_remove (rq_remove q item) item = rq_remove q item
    ∧ rq_remove ⟨q.ring, insert item.1 q.completed⟩ item = rq_remove q item := by
  refine ⟨?_, ?_, ?_, ?_, ?_⟩
  · intro hmem
    have := List.of_mem_filter hmem
    simp at this
  · exact Finset.not_mem_erase item.1 q.completed
  · intro e he hne
    refine List.mem_filter.mpr ⟨he, ?_⟩
    simpa using hne
  · simp only [rq_remove, RQ.mk.injEq]
    constructor
    · rw [List.filter_filter]
      apply List.filter_congr
      intro a _
      rw [Bool.and_self]
    · exact Finset.erase_idem
  · simp [rq_remove, Finset.erase_insert_eq_erase]

/-- Witness for C9: removing `("hi", no timestamp)` from a two-envelope ring
keeps the unrelated envelope. -/
theorem C9_remove_idempotent_witness :
    ("3:ab:7" : String) ∈ (rq_remove ⟨["2:hi:", "3:ab:7"], ∅⟩ ("hi", none)).ring :=
  (C9_remove_idempotent ⟨["2:hi:", "3:ab:7"], ∅⟩ ("hi", none)).2.2.1 "3:ab:7"
    (by decide) (by decide)

/-- Claim C10.  `pop` returning an empty result does not mean the queue is
empty: when the tail envelope is claimed and its payload is in the
completion set, `pop` retires just that envelope and returns empty without
delivering any remaining envelope, so on a ring of two or more envelopes
the queue is still nonempty afterwards (its length only dropped by one) —
emptiness must be read from the queue's length. -/
theorem C10_pop_none_not_empty (q : RQ) (e l msg ts : String) (now : Nat)
    (he : q.ring.getLast? = some e) (hp : luaMatch e = some (l, msg, ts))
    (hts : ts ≠ "") (hmem : msg ∈ q.completed) (hlen : 2 ≤ q.ring.length) :
    rq_pop q now = Except.ok (none, ⟨q.ring.dropLast, q.completed.erase msg⟩)
    ∧ (⟨q.ring.dropLast, q.completed.erase msg⟩ : RQ).ring ≠ []
    ∧ (⟨q.ring.dropLast, q.completed.erase msg⟩ : RQ).ring.length = q.ring.length - 1 := by
  refine ⟨rq_pop_claimed_completed he hp hts hmem now, ?_, List.length_dropLast q.ring⟩
  have hl := List.length_dropLast q.ring
  intro hnil
  have hn2 : q.ring.dropLast = [] := hnil
  rw [hn2] at hl
  simp at hl
  omega

/-- Witness for C10: a ring holding `["2:ab:", "2:hi:5"]` with `"hi"`
completed; pop returns empty yet an envelope remains. -/
theorem C10_pop_none_not_empty_witness :
    (⟨(["2:ab:", "2:hi:5"] : List String).dropLast,
        ({"hi"} : Finset String).erase "hi"⟩ : RQ).ring ≠ [] :=
  (C10_pop_none_not_empty ⟨["2:ab:", "2:hi:5"], {"hi"}⟩ "2:hi:5" "2" "hi" "5" 9
    (by decide) (by decide) (by decide) (by decide) (by decide)).2.1

/-- Witness for C7: the theorem applied to a concrete submission into an
empty store. -/
theorem C7_send_expire_and_delete_witness :
    (clientSend [] [] "j1" "p" none 5 1 0 (0 + 7)).1
      = some ⟨"j1", "p", 0, none, none, "expire", none, none⟩ :=
  (C7_send_expire_and_delete [] [] "j1" "p" 0 0).1
